import Mathlib

/-!
Shallow embedding of `src/src/main.rs`: an intrusive weak set.

The Rust program has two cooperating types:

* `WeakSet<T>` with field `objects: RefCell<HashSet<*const Entry<T>>>` — a set of
  raw addresses of member entries;
* `Entry<T>` with fields `x: T` and `collection: Cell<Option<*const WeakSet<T>>>` —
  the wrapped value and an optional raw back-pointer to the owning set.

We model raw addresses as natural numbers and the heap as two partial maps
(address to live object, `none` meaning no live object at that address).
`Arc` sharing is modelled with a reference count per entry address.
Pinning (`PhantomPinned`/`Pin`) is reflected by addresses being immutable keys.

Operations return `Option` results: `none` models the one panic in the source
(double insertion) for `insertOp`, and an `unsafe` dereference of a dangling
address (undefined behaviour) for the destruction and iteration paths.
-/

namespace WeakSetModel

/-- Model of `Entry<T>` (with `T` fixed to the integers, as in `main` where
values 42 and 43 are used): the wrapped value `x` and the optional address of
the collection this entry belongs to (`collection: Cell<Option<*const WeakSet<T>>>`). -/
structure Entry where
  x : Int
  collection : Option Nat
deriving DecidableEq, Repr

/-- Model of `WeakSet<T>`: the set `objects` of member entry addresses.
The Rust `HashSet` is modelled as a duplicate-free list (order unspecified). -/
structure WeakSet where
  objects : List Nat
deriving DecidableEq, Repr

/-- The program state: the heap of live weak sets, the heap of live entries,
and the number of owning handles (`Box` = 1, `Arc` clones) per entry address. -/
structure State where
  sets : Nat → Option WeakSet
  entries : Nat → Option Entry
  rc : Nat → Nat

/-- Model of `HashSet::insert`: adds the address if it is not already present. -/
def listInsert (e : Nat) (l : List Nat) : List Nat :=
  if e ∈ l then l else e :: l

/-- Model of `WeakSet::new`/`Entry::new` allocation is implicit: a fresh state
with a set or entry at a chosen unused address. `WeakSet::new` makes `objects`
empty; `Entry::new` makes `collection` none. -/
def emptyState : State :=
  { sets := fun _ => none, entries := fun _ => none, rc := fun _ => 0 }

/-- The state after a successful `WeakSet::insert`: the entry address is added to
the set's `objects` and the entry's `collection` back-pointer is set. -/
def insertState (σ : State) (r e : Nat) (ws : WeakSet) (ent : Entry) : State :=
  { σ with
    sets := fun a => if a = r then some { objects := listInsert e ws.objects } else σ.sets a,
    entries := fun a => if a = e then some { ent with collection := some r } else σ.entries a }

/-- Model of `WeakSet::insert(self: Pin<&mut Self>, entry: Pin<&Entry<T>>)`.
The source first checks `entry.collection.get().is_some()` and panics in that
case (modelled by `none`) before performing any mutation; otherwise it inserts
the entry address into `objects` and sets the back-pointer. Both arguments are
live references in Rust, so the result is only meaningful when both addresses
are live. -/
def insertOp (σ : State) (r e : Nat) : Option State :=
  match σ.sets r, σ.entries e with
  | some ws, some ent =>
    match ent.collection with
    | some _ => none
    | none => some (insertState σ r e ws ent)
  | _, _ => none

/-- Model of reading the values behind a list of entry addresses, as
`Iter::next` does with `self.base.next().map(|x| unsafe { &**x })`: dereferencing
a dangling address is undefined behaviour, modelled by `none`. -/
def readVals (σ : State) : List Nat → Option (List Int)
  | [] => some []
  | a :: rest =>
    match σ.entries a with
    | none => none
    | some ent => (readVals σ rest).map (fun l => ent.x :: l)

/-- Model of `WeakSet::iter` followed by draining the iterator: the finite
sequence of member values, in the set's (unspecified) order. -/
def iterOp (σ : State) (r : Nat) : Option (List Int) :=
  match σ.sets r with
  | none => none
  | some ws => readVals σ ws.objects

/-- The state after `Drop for WeakSet` at address `r` with contents `ws`:
every member entry's `collection` is set to `None`, then the set's own
storage is released. -/
def dropSetState (σ : State) (r : Nat) (ws : WeakSet) : State :=
  { σ with
    sets := fun a => if a = r then none else σ.sets a,
    entries := fun a =>
      if a ∈ ws.objects then (σ.entries a).map (fun ent => { ent with collection := none })
      else σ.entries a }

/-- Model of `Drop for WeakSet`: iterates over `objects`, dereferencing each
member address (`unsafe { &**entry }`, undefined behaviour if dangling —
modelled by `none`) and clearing its `collection` cell, then frees the set. -/
def dropSetOp (σ : State) (r : Nat) : Option State :=
  match σ.sets r with
  | none => none
  | some ws =>
    if ws.objects.all (fun a => (σ.entries a).isSome) then some (dropSetState σ r ws)
    else none

/-- The state with the entry at address `e` deallocated. -/
def removeEntryState (σ : State) (e : Nat) : State :=
  { σ with entries := fun a => if a = e then none else σ.entries a }

/-- The state with address `e` erased from the member list of the set at `c`. -/
def eraseMemberState (σ : State) (c : Nat) (ws : WeakSet) (e : Nat) : State :=
  { σ with
    sets := fun a => if a = c then some { objects := ws.objects.erase e } else σ.sets a }

/-- Model of `Drop for Entry` (the destruction hook) at address `e`: if the
entry's `collection` is `Some c`, the set at `c` is dereferenced
(`unsafe { &*collection }`, undefined behaviour if dangling — modelled by
`none`) and `e` is removed from its `objects`; then the entry's storage is
released. -/
def dropEntryHook (σ : State) (e : Nat) : Option State :=
  match σ.entries e with
  | none => none
  | some ent =>
    match ent.collection with
    | none => some (removeEntryState σ e)
    | some c =>
      match σ.sets c with
      | none => none
      | some ws => some (removeEntryState (eraseMemberState σ c ws e) e)

/-- Model of releasing one owning handle of the entry at `e` (`drop` of a `Box`
or of one `Arc` clone): the destruction hook only fires when the last handle is
released; otherwise only the reference count decreases. -/
def dropHandle (σ : State) (e : Nat) : Option State :=
  match σ.entries e with
  | none => none
  | some _ =>
    if σ.rc e ≤ 1 then
      (dropEntryHook σ e).map fun σ2 =>
        { σ2 with rc := fun a => if a = e then 0 else σ2.rc a }
    else
      some { σ with rc := fun a => if a = e then σ.rc e - 1 else σ.rc a }

/-- Invariant 1 and 2 of the specification (membership symmetry): for every live
set and live entry, the entry's address is among the set's members exactly when
the entry's back-pointer names that set's address. -/
def Sym (σ : State) : Prop :=
  ∀ r ws e ent, σ.sets r = some ws → σ.entries e = some ent →
    (e ∈ ws.objects ↔ ent.collection = some r)

/-- Every member address of a live set points to a live entry. -/
def MembersLive (σ : State) : Prop :=
  ∀ r ws, σ.sets r = some ws → ∀ e ∈ ws.objects, (σ.entries e).isSome

/-- Every entry's back-pointer, when set, points to a live set. -/
def CollLive (σ : State) : Prop :=
  ∀ e ent c, σ.entries e = some ent → ent.collection = some c → (σ.sets c).isSome

/-- The member list of a live set holds each address at most once
(the Rust `HashSet` guarantees this). -/
def MembersNodup (σ : State) : Prop :=
  ∀ r ws, σ.sets r = some ws → ws.objects.Nodup

/-- The full heap invariant maintained by the program. -/
def Inv (σ : State) : Prop :=
  Sym σ ∧ MembersLive σ ∧ CollLive σ ∧ MembersNodup σ

end WeakSetModel

namespace WeakSetModel

theorem listInsert_mem (e : Nat) (l : List Nat) (a : Nat) :
    a ∈ listInsert e l ↔ a = e ∨ a ∈ l := by
  unfold listInsert
  split
  · constructor
    · exact fun h => Or.inr h
    · rintro (rfl | h) <;> assumption
  · simp [or_comm]

theorem listInsert_nodup (e : Nat) (l : List Nat) (h : l.Nodup) :
    (listInsert e l).Nodup := by
  unfold listInsert
  split
  · exact h
  · exact List.nodup_cons.mpr ⟨by assumption, h⟩

theorem insertOp_eq_some (σ : State) (r e : Nat) (σ' : State)
    (h : insertOp σ r e = some σ') :
    ∃ ws ent, σ.sets r = some ws ∧ σ.entries e = some ent ∧
      ent.collection = none ∧ σ' = insertState σ r e ws ent := by
  unfold insertOp at h
  cases hr : σ.sets r with
  | none => rw [hr] at h; exact absurd h (by simp)
  | some ws =>
    cases he : σ.entries e with
    | none => rw [hr, he] at h; exact absurd h (by simp)
    | some ent =>
      rw [hr, he] at h
      dsimp only at h
      cases hc : ent.collection with
      | none =>
        rw [hc] at h
        dsimp only at h
        exact ⟨ws, ent, rfl, rfl, hc, (Option.some.inj h).symm⟩
      | some c =>
        rw [hc] at h
        dsimp only at h
        exact Option.noConfusion h

theorem insertState_sets (σ : State) (r e : Nat) (ws : WeakSet) (ent : Entry) (a : Nat) :
    (insertState σ r e ws ent).sets a =
      if a = r then some { objects := listInsert e ws.objects } else σ.sets a := rfl

theorem insertState_entries (σ : State) (r e : Nat) (ws : WeakSet) (ent : Entry) (a : Nat) :
    (insertState σ r e ws ent).entries a =
      if a = e then some { ent with collection := some r } else σ.entries a := rfl

theorem insert_preserves_Inv (σ : State) (r e : Nat) (ws : WeakSet) (ent : Entry)
    (hInv : Inv σ) (hr : σ.sets r = some ws) (he : σ.entries e = some ent)
    (hc : ent.collection = none) :
    Inv (insertState σ r e ws ent) := by
  obtain ⟨hSym, hML, hCL, hND⟩ := hInv
  refine ⟨?_, ?_, ?_, ?_⟩
  · -- membership symmetry
    intro r' ws' e' ent' hr' he'
    rw [insertState_sets] at hr'
    rw [insertState_entries] at he'
    by_cases hrr : r' = r
    · rw [if_pos hrr] at hr'
      obtain rfl : ({ objects := listInsert e ws.objects } : WeakSet) = ws' :=
        Option.some.inj hr'
      by_cases hee : e' = e
      · rw [if_pos hee] at he'
        obtain rfl : ({ ent with collection := some r } : Entry) = ent' :=
          Option.some.inj he'
        show e' ∈ listInsert e ws.objects ↔ (some r : Option Nat) = some r'
        constructor
        · intro _; rw [hrr]
        · intro _
          rw [listInsert_mem]
          exact Or.inl hee
      · rw [if_neg hee] at he'
        show e' ∈ listInsert e ws.objects ↔ ent'.collection = some r'
        rw [listInsert_mem, hrr, ← hSym r ws e' ent' hr he']
        constructor
        · rintro (h | h)
          · exact absurd h hee
          · exact h
        · exact fun h => Or.inr h
    · rw [if_neg hrr] at hr'
      by_cases hee : e' = e
      · rw [if_pos hee] at he'
        obtain rfl : ({ ent with collection := some r } : Entry) = ent' :=
          Option.some.inj he'
        show e' ∈ ws'.objects ↔ (some r : Option Nat) = some r'
        have hent : σ.entries e' = some ent := by rw [hee]; exact he
        have hnot : e' ∉ ws'.objects := by
          intro hmem
          have hcs := (hSym r' ws' e' ent hr' hent).mp hmem
          rw [hc] at hcs
          exact Option.noConfusion hcs
        constructor
        · intro hmem; exact absurd hmem hnot
        · intro hcol; exact absurd (Option.some.inj hcol).symm hrr
      · rw [if_neg hee] at he'
        exact hSym r' ws' e' ent' hr' he'
  · -- member addresses stay live
    intro r' ws' hr' a ha
    rw [insertState_sets] at hr'
    rw [insertState_entries]
    by_cases hae : a = e
    · rw [if_pos hae]; rfl
    · rw [if_neg hae]
      by_cases hrr : r' = r
      · rw [if_pos hrr] at hr'
        obtain rfl : ({ objects := listInsert e ws.objects } : WeakSet) = ws' :=
          Option.some.inj hr'
        have ha' := (listInsert_mem e ws.objects a).mp ha
        rcases ha' with h | h
        · exact absurd h hae
        · exact hML r ws hr a h
      · rw [if_neg hrr] at hr'
        exact hML r' ws' hr' a ha
  · -- back-pointers stay live
    intro e' ent' c he' hcc
    rw [insertState_entries] at he'
    rw [insertState_sets]
    by_cases hcr : c = r
    · rw [if_pos hcr]; rfl
    · rw [if_neg hcr]
      by_cases hee : e' = e
      · rw [if_pos hee] at he'
        obtain rfl : ({ ent with collection := some r } : Entry) = ent' :=
          Option.some.inj he'
        have hrc : (some r : Option Nat) = some c := hcc
        exact absurd (Option.some.inj hrc).symm hcr
      · rw [if_neg hee] at he'
        exact hCL e' ent' c he' hcc
  · -- member lists stay duplicate-free
    intro r' ws' hr'
    rw [insertState_sets] at hr'
    by_cases hrr : r' = r
    · rw [if_pos hrr] at hr'
      obtain rfl : ({ objects := listInsert e ws.objects } : WeakSet) = ws' :=
        Option.some.inj hr'
      exact listInsert_nodup e ws.objects (hND r ws hr)
    · rw [if_neg hrr] at hr'
      exact hND r' ws' hr'

end WeakSetModel

namespace WeakSetModel

theorem dropSetState_sets (σ : State) (r : Nat) (ws : WeakSet) (a : Nat) :
    (dropSetState σ r ws).sets a = if a = r then none else σ.sets a := rfl

theorem dropSetState_entries (σ : State) (r : Nat) (ws : WeakSet) (a : Nat) :
    (dropSetState σ r ws).entries a =
      if a ∈ ws.objects then (σ.entries a).map (fun ent => { ent with collection := none })
      else σ.entries a := rfl

theorem dropSetOp_eq_some (σ : State) (r : Nat) (σ' : State)
    (h : dropSetOp σ r = some σ') :
    ∃ ws, σ.sets r = some ws ∧ (∀ a ∈ ws.objects, (σ.entries a).isSome) ∧
      σ' = dropSetState σ r ws := by
  unfold dropSetOp at h
  cases hr : σ.sets r with
  | none => rw [hr] at h; exact absurd h (by simp)
  | some ws =>
    rw [hr] at h
    dsimp only at h
    by_cases hall : ws.objects.all (fun a => (σ.entries a).isSome) = true
    · rw [if_pos hall] at h
      refine ⟨ws, rfl, ?_, (Option.some.inj h).symm⟩
      intro a ha
      exact List.all_eq_true.mp hall a ha
    · rw [if_neg hall] at h
      exact Option.noConfusion h

theorem dropSet_succeeds (σ : State) (r : Nat) (ws : WeakSet)
    (hML : MembersLive σ) (hr : σ.sets r = some ws) :
    dropSetOp σ r = some (dropSetState σ r ws) := by
  unfold dropSetOp
  rw [hr]
  dsimp only
  rw [if_pos (List.all_eq_true.mpr (fun a ha => hML r ws hr a ha))]

theorem dropSet_preserves_Inv (σ : State) (r : Nat) (ws : WeakSet)
    (hInv : Inv σ) (hr : σ.sets r = some ws) :
    Inv (dropSetState σ r ws) := by
  obtain ⟨hSym, hML, hCL, hND⟩ := hInv
  refine ⟨?_, ?_, ?_, ?_⟩
  · -- membership symmetry
    intro r' ws' e' ent' hr' he'
    rw [dropSetState_sets] at hr'
    rw [dropSetState_entries] at he'
    by_cases hrr : r' = r
    · rw [if_pos hrr] at hr'; exact Option.noConfusion hr'
    · rw [if_neg hrr] at hr'
      by_cases hmem : e' ∈ ws.objects
      · rw [if_pos hmem] at he'
        obtain ⟨ent0, he0, hent⟩ := Option.map_eq_some'.mp he'
        have hcol : ent'.collection = none := by rw [← hent]
        have hr0 : ent0.collection = some r := (hSym r ws e' ent0 hr he0).mp hmem
        have hnot : e' ∉ ws'.objects := by
          intro hmem'
          have := (hSym r' ws' e' ent0 hr' he0).mp hmem'
          rw [hr0] at this
          exact hrr (Option.some.inj this).symm
        constructor
        · intro hmem'; exact absurd hmem' hnot
        · intro hcontra; rw [hcol] at hcontra; exact Option.noConfusion hcontra
      · rw [if_neg hmem] at he'
        exact hSym r' ws' e' ent' hr' he'
  · -- member addresses stay live
    intro r' ws' hr' a ha
    rw [dropSetState_sets] at hr'
    rw [dropSetState_entries]
    by_cases hrr : r' = r
    · rw [if_pos hrr] at hr'; exact Option.noConfusion hr'
    · rw [if_neg hrr] at hr'
      have hlive := hML r' ws' hr' a ha
      by_cases hmem : a ∈ ws.objects
      · rw [if_pos hmem]
        cases hx : σ.entries a with
        | none => rw [hx] at hlive; simp at hlive
        | some ent0 => rfl
      · rw [if_neg hmem]; exact hlive
  · -- back-pointers stay live
    intro e' ent' c he' hcc
    rw [dropSetState_entries] at he'
    rw [dropSetState_sets]
    by_cases hmem : e' ∈ ws.objects
    · rw [if_pos hmem] at he'
      obtain ⟨ent0, he0, hent⟩ := Option.map_eq_some'.mp he'
      have hcol : ent'.collection = none := by rw [← hent]
      rw [hcol] at hcc
      exact Option.noConfusion hcc
    · rw [if_neg hmem] at he'
      by_cases hcr : c = r
      · exfalso
        apply hmem
        apply (hSym r ws e' ent' hr he').mpr
        rw [← hcr]
        exact hcc
      · rw [if_neg hcr]
        exact hCL e' ent' c he' hcc
  · -- member lists stay duplicate-free
    intro r' ws' hr'
    rw [dropSetState_sets] at hr'
    by_cases hrr : r' = r
    · rw [if_pos hrr] at hr'; exact Option.noConfusion hr'
    · rw [if_neg hrr] at hr'
      exact hND r' ws' hr'

end WeakSetModel

namespace WeakSetModel

theorem removeEntryState_sets (σ : State) (e : Nat) (a : Nat) :
    (removeEntryState σ e).sets a = σ.sets a := rfl

theorem removeEntryState_entries (σ : State) (e : Nat) (a : Nat) :
    (removeEntryState σ e).entries a = if a = e then none else σ.entries a := rfl

theorem eraseMemberState_sets (σ : State) (c : Nat) (ws : WeakSet) (e : Nat) (a : Nat) :
    (eraseMemberState σ c ws e).sets a =
      if a = c then some { objects := ws.objects.erase e } else σ.sets a := rfl

theorem eraseMemberState_entries (σ : State) (c : Nat) (ws : WeakSet) (e : Nat) (a : Nat) :
    (eraseMemberState σ c ws e).entries a = σ.entries a := rfl

theorem dropEntryHook_eq_some (σ : State) (e : Nat) (σ' : State)
    (h : dropEntryHook σ e = some σ') :
    ∃ ent, σ.entries e = some ent ∧
      ((ent.collection = none ∧ σ' = removeEntryState σ e) ∨
       (∃ c ws, ent.collection = some c ∧ σ.sets c = some ws ∧
         σ' = removeEntryState (eraseMemberState σ c ws e) e)) := by
  unfold dropEntryHook at h
  cases he : σ.entries e with
  | none => rw [he] at h; exact absurd h (by simp)
  | some ent =>
    rw [he] at h
    dsimp only at h
    cases hc : ent.collection with
    | none =>
      rw [hc] at h
      dsimp only at h
      exact ⟨ent, rfl, Or.inl ⟨hc, (Option.some.inj h).symm⟩⟩
    | some c =>
      rw [hc] at h
      dsimp only at h
      cases hs : σ.sets c with
      | none => rw [hs] at h; exact absurd h (by simp)
      | some ws =>
        rw [hs] at h
        dsimp only at h
        exact ⟨ent, rfl, Or.inr ⟨c, ws, hc, hs, (Option.some.inj h).symm⟩⟩

theorem dropEntryHook_succeeds (σ : State) (e : Nat) (ent : Entry)
    (hCL : CollLive σ) (he : σ.entries e = some ent) :
    (dropEntryHook σ e).isSome := by
  unfold dropEntryHook
  rw [he]
  dsimp only
  cases hc : ent.collection with
  | none => rfl
  | some c =>
    dsimp only
    have hlive := hCL e ent c he hc
    cases hs : σ.sets c with
    | none => rw [hs] at hlive; simp at hlive
    | some ws => rfl

theorem remove_preserves_Inv (σ : State) (e : Nat) (ent : Entry)
    (hInv : Inv σ) (he : σ.entries e = some ent) (hc : ent.collection = none) :
    Inv (removeEntryState σ e) := by
  obtain ⟨hSym, hML, hCL, hND⟩ := hInv
  refine ⟨?_, ?_, ?_, ?_⟩
  · -- membership symmetry
    intro r' ws' e' ent' hr' he'
    rw [removeEntryState_sets] at hr'
    rw [removeEntryState_entries] at he'
    by_cases hee : e' = e
    · rw [if_pos hee] at he'; exact Option.noConfusion he'
    · rw [if_neg hee] at he'
      exact hSym r' ws' e' ent' hr' he'
  · -- member addresses stay live
    intro r' ws' hr' a ha
    rw [removeEntryState_sets] at hr'
    rw [removeEntryState_entries]
    by_cases hae : a = e
    · exfalso
      have hent : σ.entries a = some ent := by rw [hae]; exact he
      have := (hSym r' ws' a ent hr' hent).mp ha
      rw [hc] at this
      exact Option.noConfusion this
    · rw [if_neg hae]
      exact hML r' ws' hr' a ha
  · -- back-pointers stay live
    intro e' ent' c he' hcc
    rw [removeEntryState_entries] at he'
    rw [removeEntryState_sets]
    by_cases hee : e' = e
    · rw [if_pos hee] at he'; exact Option.noConfusion he'
    · rw [if_neg hee] at he'
      exact hCL e' ent' c he' hcc
  · -- member lists stay duplicate-free
    intro r' ws' hr'
    rw [removeEntryState_sets] at hr'
    exact hND r' ws' hr'

theorem erase_remove_preserves_Inv (σ : State) (e : Nat) (ent : Entry) (c : Nat) (ws : WeakSet)
    (hInv : Inv σ) (he : σ.entries e = some ent) (hc : ent.collection = some c)
    (hs : σ.sets c = some ws) :
    Inv (removeEntryState (eraseMemberState σ c ws e) e) := by
  obtain ⟨hSym, hML, hCL, hND⟩ := hInv
  refine ⟨?_, ?_, ?_, ?_⟩
  · -- membership symmetry
    intro r' ws' e' ent' hr' he'
    rw [removeEntryState_sets, eraseMemberState_sets] at hr'
    rw [removeEntryState_entries, eraseMemberState_entries] at he'
    by_cases hee : e' = e
    · rw [if_pos hee] at he'; exact Option.noConfusion he'
    · rw [if_neg hee] at he'
      by_cases hrc : r' = c
      · rw [if_pos hrc] at hr'
        obtain rfl : ({ objects := ws.objects.erase e } : WeakSet) = ws' :=
          Option.some.inj hr'
        show e' ∈ ws.objects.erase e ↔ ent'.collection = some r'
        rw [List.mem_erase_of_ne hee, hrc]
        exact hSym c ws e' ent' hs he'
      · rw [if_neg hrc] at hr'
        exact hSym r' ws' e' ent' hr' he'
  · -- member addresses stay live
    intro r' ws' hr' a ha
    rw [removeEntryState_sets, eraseMemberState_sets] at hr'
    rw [removeEntryState_entries, eraseMemberState_entries]
    by_cases hrc : r' = c
    · rw [if_pos hrc] at hr'
      obtain rfl : ({ objects := ws.objects.erase e } : WeakSet) = ws' :=
        Option.some.inj hr'
      have hae : a ≠ e := by
        intro hae
        rw [hae] at ha
        exact (hND c ws hs).not_mem_erase ha
      rw [if_neg hae]
      exact hML c ws hs a (List.mem_of_mem_erase ha)
    · rw [if_neg hrc] at hr'
      have hae : a ≠ e := by
        intro hae
        have hent : σ.entries a = some ent := by rw [hae]; exact he
        have := (hSym r' ws' a ent hr' hent).mp ha
        rw [hc] at this
        exact hrc (Option.some.inj this).symm
      rw [if_neg hae]
      exact hML r' ws' hr' a ha
  · -- back-pointers stay live
    intro e' ent' c' he' hcc
    rw [removeEntryState_entries, eraseMemberState_entries] at he'
    rw [removeEntryState_sets, eraseMemberState_sets]
    by_cases hee : e' = e
    · rw [if_pos hee] at he'; exact Option.noConfusion he'
    · rw [if_neg hee] at he'
      by_cases hcc' : c' = c
      · rw [if_pos hcc']; rfl
      · rw [if_neg hcc']
        exact hCL e' ent' c' he' hcc
  · -- member lists stay duplicate-free
    intro r' ws' hr'
    rw [removeEntryState_sets, eraseMemberState_sets] at hr'
    by_cases hrc : r' = c
    · rw [if_pos hrc] at hr'
      obtain rfl : ({ objects := ws.objects.erase e } : WeakSet) = ws' :=
        Option.some.inj hr'
      exact (hND c ws hs).erase e
    · rw [if_neg hrc] at hr'
      exact hND r' ws' hr'

theorem dropEntryHook_preserves_Inv (σ : State) (e : Nat) (σ' : State)
    (hInv : Inv σ) (h : dropEntryHook σ e = some σ') : Inv σ' := by
  obtain ⟨ent, he, hcase⟩ := dropEntryHook_eq_some σ e σ' h
  rcases hcase with ⟨hc, rfl⟩ | ⟨c, ws, hc, hs, rfl⟩
  · exact remove_preserves_Inv σ e ent hInv he hc
  · exact erase_remove_preserves_Inv σ e ent c ws hInv he hc hs

end WeakSetModel

namespace WeakSetModel

theorem Inv_rcUpdate (σ : State) (f : Nat → Nat) (h : Inv σ) :
    Inv { σ with rc := f } := h

theorem dropHandle_eq_some (σ : State) (e : Nat) (σ' : State)
    (h : dropHandle σ e = some σ') :
    (σ.rc e ≤ 1 ∧ ∃ σ2, dropEntryHook σ e = some σ2 ∧
        σ' = { σ2 with rc := fun a => if a = e then 0 else σ2.rc a }) ∨
    (1 < σ.rc e ∧ σ' = { σ with rc := fun a => if a = e then σ.rc e - 1 else σ.rc a }) := by
  unfold dropHandle at h
  cases he : σ.entries e with
  | none => rw [he] at h; exact absurd h (by simp)
  | some ent =>
    rw [he] at h
    dsimp only at h
    by_cases hrc : σ.rc e ≤ 1
    · rw [if_pos hrc] at h
      left
      refine ⟨hrc, ?_⟩
      cases hh : dropEntryHook σ e with
      | none => rw [hh] at h; exact absurd h (by simp)
      | some σ2 =>
        rw [hh] at h
        rw [Option.map_some'] at h
        exact ⟨σ2, rfl, (Option.some.inj h).symm⟩
    · rw [if_neg hrc] at h
      exact Or.inr ⟨Nat.lt_of_not_le hrc, (Option.some.inj h).symm⟩

theorem dropHandle_preserves_Inv (σ : State) (e : Nat) (σ' : State)
    (hInv : Inv σ) (h : dropHandle σ e = some σ') : Inv σ' := by
  rcases dropHandle_eq_some σ e σ' h with ⟨hrc, σ2, hh, rfl⟩ | ⟨hrc, rfl⟩
  · exact Inv_rcUpdate σ2 _ (dropEntryHook_preserves_Inv σ e σ2 hInv hh)
  · exact Inv_rcUpdate σ _ hInv

theorem readVals_eq_some (σ : State) (l : List Nat)
    (h : ∀ a ∈ l, (σ.entries a).isSome) :
    ∃ vl, readVals σ l = some vl ∧
      List.Forall₂ (fun a v => ∃ ent, σ.entries a = some ent ∧ ent.x = v) l vl := by
  induction l with
  | nil => exact ⟨[], rfl, List.Forall₂.nil⟩
  | cons a rest ih =>
    have ha := h a (List.mem_cons_self a rest)
    cases he : σ.entries a with
    | none => rw [he] at ha; simp at ha
    | some ent =>
      obtain ⟨vl, hvl, hall⟩ := ih (fun b hb => h b (List.mem_cons_of_mem a hb))
      refine ⟨ent.x :: vl, ?_, List.Forall₂.cons ⟨ent, he, rfl⟩ hall⟩
      unfold readVals
      rw [he, hvl]
      rfl

theorem readVals_mem (σ : State) (l : List Nat) (e : Nat) (ent : Entry) (vl : List Int)
    (hmem : e ∈ l) (he : σ.entries e = some ent) (h : readVals σ l = some vl) :
    ent.x ∈ vl := by
  induction l generalizing vl with
  | nil => simp at hmem
  | cons a rest ih =>
    unfold readVals at h
    cases ha : σ.entries a with
    | none => rw [ha] at h; exact absurd h (by simp)
    | some enta =>
      rw [ha] at h
      dsimp only at h
      cases hrest : readVals σ rest with
      | none => rw [hrest] at h; exact absurd h (by simp)
      | some vrest =>
        rw [hrest, Option.map_some'] at h
        obtain rfl : enta.x :: vrest = vl := Option.some.inj h
        rcases List.mem_cons.mp hmem with rfl | hmem'
        · obtain rfl : enta = ent := Option.some.inj (ha.symm.trans he)
          exact List.mem_cons_self _ _
        · exact List.mem_cons_of_mem _ (ih vrest hmem' hrest)

theorem iterOp_eq (σ : State) (r : Nat) (ws : WeakSet) (hr : σ.sets r = some ws) :
    iterOp σ r = readVals σ ws.objects := by
  unfold iterOp
  rw [hr]

end WeakSetModel

namespace WeakSetModel

/-- A concrete reachable state mirroring `main`: a weak set at address 1 holding
entries 10 (value 42, one owner, like `Box::pin`) and 11 (value 43, two owners,
like `Arc::pin` plus a clone), a second empty weak set at address 2, and an
unregistered entry 12 (value 7, one owner). -/
def exState : State :=
  { sets := fun a => if a = 1 then some { objects := [10, 11] }
            else if a = 2 then some { objects := [] } else none,
    entries := fun a => if a = 10 then some { x := 42, collection := some 1 }
               else if a = 11 then some { x := 43, collection := some 1 }
               else if a = 12 then some { x := 7, collection := none } else none,
    rc := fun a => if a = 10 then 1 else if a = 11 then 2 else if a = 12 then 1 else 0 }

theorem exState_Inv : Inv exState := by
  refine ⟨?_, ?_, ?_, ?_⟩
  · intro r ws e ent hr he
    unfold exState at hr he
    dsimp only at hr he
    repeat' split at hr
    all_goals repeat' split at he
    all_goals simp_all
    all_goals (subst hr; subst he; decide)
  · intro r ws hr a ha
    unfold exState at hr ⊢
    dsimp only at hr ⊢
    repeat' split at hr
    all_goals simp_all
    all_goals subst hr
    all_goals simp at ha
    all_goals (rcases ha with rfl | rfl <;> decide)
  · intro e ent c he hcc
    unfold exState at he ⊢
    dsimp only at he ⊢
    repeat' split at he
    all_goals simp_all
    all_goals subst he
    all_goals (first
      | exact Option.noConfusion hcc
      | (obtain rfl : (1 : Nat) = c := Option.some.inj hcc; decide))
  · intro r ws hr
    unfold exState at hr
    dsimp only at hr
    repeat' split at hr
    all_goals simp_all
    all_goals (subst hr; decide)

theorem nodup_singleton_eq (l : List Nat) (b : Nat) (hnd : l.Nodup)
    (hmem : ∀ a, a ∈ l ↔ a = b) : l = [b] := by
  cases l with
  | nil => exact absurd ((hmem b).mpr rfl) (List.not_mem_nil b)
  | cons hd tl =>
    obtain rfl : hd = b := (hmem hd).mp (List.mem_cons_self hd tl)
    have htl : tl = [] := by
      apply List.eq_nil_iff_forall_not_mem.mpr
      intro a ha
      have hab : a = hd := (hmem a).mp (List.mem_cons_of_mem hd ha)
      rw [hab] at ha
      exact (List.nodup_cons.mp hnd).1 ha
    rw [htl]

theorem readVals_congr (σ σ' : State) (h : ∀ a, σ.entries a = σ'.entries a)
    (l : List Nat) : readVals σ l = readVals σ' l := by
  induction l with
  | nil => rfl
  | cons a rest ih =>
    unfold readVals
    rw [h a, ih]

theorem insertOp_none_of_registered (σ : State) (r e c : Nat) (ent : Entry)
    (he : σ.entries e = some ent) (hc : ent.collection = some c) :
    insertOp σ r e = none := by
  unfold insertOp
  cases hr : σ.sets r with
  | none => rfl
  | some ws =>
    rw [he]
    dsimp only
    rw [hc]

end WeakSetModel

namespace WeakSetModel

/-- Claim C1: membership symmetry — for every live registry and live entry, the
entry's address is in the registry's member set iff the entry's membership field
names that registry — holds after every successful insert, every entry
destruction, and every registry destruction, starting from any state satisfying
the heap invariant. -/
theorem membership_symmetry_after_ops (σ σ' : State) (r e : Nat) (hInv : Inv σ)
    (h : insertOp σ r e = some σ' ∨ dropEntryHook σ e = some σ' ∨ dropSetOp σ r = some σ') :
    Sym σ' := by
  rcases h with h | h | h
  · obtain ⟨ws, ent, hr, he, hc, rfl⟩ := insertOp_eq_some σ r e σ' h
    exact (insert_preserves_Inv σ r e ws ent hInv hr he hc).1
  · exact (dropEntryHook_preserves_Inv σ e σ' hInv h).1
  · obtain ⟨ws, hr, hlive, rfl⟩ := dropSetOp_eq_some σ r σ' h
    exact (dropSet_preserves_Inv σ r ws hInv hr).1

/-- Claim C1 witness: symmetry after destroying the registry at address 1 of the
concrete example state. -/
theorem membership_symmetry_after_ops_witness :
    Sym ((dropSetOp exState 1).getD exState) :=
  membership_symmetry_after_ops exState ((dropSetOp exState 1).getD exState) 1 10
    exState_Inv (Or.inr (Or.inr rfl))

/-- Claim C4: inserting an entry whose membership is already `Some c` into any
live registry raises the invariant-violation panic instead of overwriting the
existing membership. -/
theorem insert_already_registered_panics (σ : State) (r e c : Nat) (ws : WeakSet) (ent : Entry)
    (hr : σ.sets r = some ws) (he : σ.entries e = some ent)
    (hc : ent.collection = some c) :
    insertOp σ r e = none :=
  insertOp_none_of_registered σ r e c ent he hc

/-- Claim C4 witness: inserting entry 11 (registered in set 1) into set 2 panics. -/
theorem insert_already_registered_panics_witness :
    insertOp exState 2 11 = none :=
  insert_already_registered_panics exState 2 11 1 { objects := [] }
    { x := 43, collection := some 1 } rfl rfl rfl

/-- Claim C9 (implicit): the insert precondition is checked against any existing
membership, so inserting an entry into the very registry it already belongs to
raises the same invariant-violation panic. -/
theorem insert_into_own_registry_panics (σ : State) (r e : Nat) (ws : WeakSet) (ent : Entry)
    (hInv : Inv σ) (hr : σ.sets r = some ws) (he : σ.entries e = some ent)
    (hmem : e ∈ ws.objects) :
    insertOp σ r e = none := by
  have hc := (hInv.1 r ws e ent hr he).mp hmem
  exact insertOp_none_of_registered σ r e r ent he hc

/-- Claim C9 witness: re-inserting entry 10 into set 1, of which it is already a
member, panics. -/
theorem insert_into_own_registry_panics_witness :
    insertOp exState 1 10 = none :=
  insert_into_own_registry_panics exState 1 10 { objects := [10, 11] }
    { x := 42, collection := some 1 } exState_Inv rfl rfl (by decide)

/-- Claim C5: when insert faults because the entry is already registered in
registry `r1`, no state is mutated — the panic branch returns before any write,
so the entry still points to `r1`, `r1`'s member set still contains the entry's
address, and the target registry's member set is unchanged. -/
theorem insert_fault_is_atomic (σ : State) (r1 r2 e : Nat) (ws1 ws2 : WeakSet) (ent : Entry)
    (hInv : Inv σ) (h1 : σ.sets r1 = some ws1) (h2 : σ.sets r2 = some ws2)
    (he : σ.entries e = some ent) (hc : ent.collection = some r1) :
    insertOp σ r2 e = none ∧ ent.collection = some r1 ∧ e ∈ ws1.objects ∧
      σ.sets r2 = some ws2 :=
  ⟨insertOp_none_of_registered σ r2 e r1 ent he hc, hc,
    (hInv.1 r1 ws1 e ent h1 he).mpr hc, h2⟩

/-- Claim C5 witness: the failed insert of entry 10 into set 2 leaves its
membership of set 1 and both member sets intact. -/
theorem insert_fault_is_atomic_witness :
    insertOp exState 2 10 = none ∧
    ({ x := 42, collection := some 1 } : Entry).collection = some 1 ∧
    10 ∈ ({ objects := [10, 11] } : WeakSet).objects ∧
    exState.sets 2 = some { objects := [] } :=
  insert_fault_is_atomic exState 1 2 10 { objects := [10, 11] } { objects := [] }
    { x := 42, collection := some 1 } exState_Inv rfl rfl rfl rfl

/-- Claim C6: inserting an unregistered entry succeeds; afterwards the entry's
address is in the registry's member set and its membership names the registry,
its wrapped value and all other entries and registries are unchanged, and the
heap invariant (spec invariants 1–3) holds for the new pair. -/
theorem insert_unregistered_succeeds (σ : State) (r e : Nat) (ws : WeakSet) (ent : Entry)
    (hInv : Inv σ) (hr : σ.sets r = some ws) (he : σ.entries e = some ent)
    (hc : ent.collection = none) :
    insertOp σ r e = some (insertState σ r e ws ent) ∧
    (insertState σ r e ws ent).sets r = some { objects := listInsert e ws.objects } ∧
    e ∈ listInsert e ws.objects ∧
    (insertState σ r e ws ent).entries e = some { x := ent.x, collection := some r } ∧
    (∀ a, a ≠ e → (insertState σ r e ws ent).entries a = σ.entries a) ∧
    (∀ a, a ≠ r → (insertState σ r e ws ent).sets a = σ.sets a) ∧
    Inv (insertState σ r e ws ent) := by
  refine ⟨?_, ?_, ?_, ?_, ?_, ?_, insert_preserves_Inv σ r e ws ent hInv hr he hc⟩
  · unfold insertOp
    rw [hr, he]
    dsimp only
    rw [hc]
  · rw [insertState_sets, if_pos rfl]
  · rw [listInsert_mem]
    exact Or.inl rfl
  · rw [insertState_entries, if_pos rfl]
  · intro a ha
    rw [insertState_entries, if_neg ha]
  · intro a ha
    rw [insertState_sets, if_neg ha]

/-- Claim C6 witness: inserting unregistered entry 12 into the empty set 2
succeeds, registers it, and leaves entry 10 and set 1 untouched. -/
theorem insert_unregistered_succeeds_witness :
    insertOp exState 2 12 = some (insertState exState 2 12 { objects := [] }
      { x := 7, collection := none }) ∧
    (insertState exState 2 12 { objects := [] } { x := 7, collection := none }).entries 12
      = some { x := 7, collection := some 2 } ∧
    (insertState exState 2 12 { objects := [] } { x := 7, collection := none }).entries 10
      = exState.entries 10 ∧
    (insertState exState 2 12 { objects := [] } { x := 7, collection := none }).sets 1
      = exState.sets 1 := by
  have h := insert_unregistered_succeeds exState 2 12 { objects := [] }
    { x := 7, collection := none } exState_Inv rfl rfl rfl
  exact ⟨h.1, h.2.2.2.1, h.2.2.2.2.1 10 (by decide), h.2.2.2.2.2.1 1 (by decide)⟩

end WeakSetModel

namespace WeakSetModel

/-- Claim C2: destroying a registry sets membership to none on every entry that
was a member — all of them — and releases the registry's storage; the former
members remain alive and their wrapped values remain readable (unchanged). -/
theorem dropSet_clears_every_member (σ σ' : State) (r : Nat) (ws : WeakSet)
    (hr : σ.sets r = some ws) (h : dropSetOp σ r = some σ') :
    σ'.sets r = none ∧
    ∀ e, e ∈ ws.objects → ∃ ent, σ.entries e = some ent ∧
      σ'.entries e = some { x := ent.x, collection := none } := by
  obtain ⟨ws0, hr0, hlive, rfl⟩ := dropSetOp_eq_some σ r σ' h
  obtain rfl : ws = ws0 := Option.some.inj (hr.symm.trans hr0)
  refine ⟨?_, ?_⟩
  · rw [dropSetState_sets, if_pos rfl]
  · intro e hmem
    have hl := hlive e hmem
    cases he : σ.entries e with
    | none => rw [he] at hl; simp at hl
    | some ent =>
      refine ⟨ent, rfl, ?_⟩
      rw [dropSetState_entries, if_pos hmem, he]
      rfl

/-- Claim C2 witness: destroying set 1 of the example state clears the
membership of both entries 10 and 11 and keeps their values 42 and 43. -/
theorem dropSet_clears_every_member_witness :
    ((dropSetOp exState 1).getD exState).sets 1 = none ∧
    ((dropSetOp exState 1).getD exState).entries 10 = some { x := 42, collection := none } ∧
    ((dropSetOp exState 1).getD exState).entries 11 = some { x := 43, collection := none } := by
  have h := dropSet_clears_every_member exState ((dropSetOp exState 1).getD exState) 1
    { objects := [10, 11] } rfl rfl
  refine ⟨h.1, ?_, ?_⟩
  · obtain ⟨ent, hent, hres⟩ := h.2 10 (by decide)
    obtain rfl : ({ x := 42, collection := some 1 } : Entry) = ent := Option.some.inj hent
    exact hres
  · obtain ⟨ent, hent, hres⟩ := h.2 11 (by decide)
    obtain rfl : ({ x := 43, collection := some 1 } : Entry) = ent := Option.some.inj hent
    exact hres

/-- Claim C3: destroying an entry that is one of exactly two members of a
registry removes exactly its own address before its storage is released: the
member set afterwards is `[e2]` and iterating then yields exactly `e2`'s
value. -/
theorem dropEntry_removes_exactly_self (σ σ' : State) (r e1 e2 : Nat) (ws : WeakSet)
    (ent1 ent2 : Entry)
    (hInv : Inv σ) (hr : σ.sets r = some ws)
    (h1 : σ.entries e1 = some ent1) (h2 : σ.entries e2 = some ent2)
    (hc1 : ent1.collection = some r) (hc2 : ent2.collection = some r)
    (hne : e1 ≠ e2)
    (honly : ∀ a ∈ ws.objects, a = e1 ∨ a = e2)
    (h : dropEntryHook σ e1 = some σ') :
    σ'.entries e1 = none ∧
    σ'.sets r = some { objects := [e2] } ∧
    iterOp σ' r = some [ent2.x] := by
  obtain ⟨hSym, hML, hCL, hND⟩ := hInv
  obtain ⟨ent, he, hcase⟩ := dropEntryHook_eq_some σ e1 σ' h
  obtain rfl : ent1 = ent := Option.some.inj (h1.symm.trans he)
  rcases hcase with ⟨hc, rfl⟩ | ⟨c, wsc, hc, hs, rfl⟩
  · rw [hc1] at hc
    exact absurd hc (by simp)
  · obtain rfl : r = c := Option.some.inj (hc1.symm.trans hc)
    obtain rfl : ws = wsc := Option.some.inj (hr.symm.trans hs)
    have herase : ws.objects.erase e1 = [e2] := by
      apply nodup_singleton_eq _ _ ((hND r ws hr).erase e1)
      intro a
      constructor
      · intro ha
        have hmem := List.mem_of_mem_erase ha
        rcases honly a hmem with rfl | rfl
        · exact absurd ha (hND r ws hr).not_mem_erase
        · rfl
      · intro ha
        rw [ha, List.mem_erase_of_ne (fun hh => hne hh.symm)]
        exact (hSym r ws e2 ent2 hr h2).mpr hc2
    have hsr : (removeEntryState (eraseMemberState σ r ws e1) e1).sets r
        = some { objects := [e2] } := by
      rw [removeEntryState_sets, eraseMemberState_sets, if_pos rfl, herase]
    refine ⟨?_, hsr, ?_⟩
    · rw [removeEntryState_entries, if_pos rfl]
    · rw [iterOp_eq _ r { objects := [e2] } hsr]
      have he2 : (removeEntryState (eraseMemberState σ r ws e1) e1).entries e2 = some ent2 := by
        rw [removeEntryState_entries, if_neg (fun hh => hne hh.symm),
          eraseMemberState_entries]
        exact h2
      unfold readVals
      rw [he2]
      rfl

/-- Claim C3 witness: destroying entry 10 (a member of set 1 alongside entry 11)
leaves set 1's member set as `[11]`, and iterating set 1 yields exactly 43. -/
theorem dropEntry_removes_exactly_self_witness :
    ((dropEntryHook exState 10).getD exState).entries 10 = none ∧
    ((dropEntryHook exState 10).getD exState).sets 1 = some { objects := [11] } ∧
    iterOp ((dropEntryHook exState 10).getD exState) 1 = some [43] :=
  dropEntry_removes_exactly_self exState ((dropEntryHook exState 10).getD exState)
    1 10 11 { objects := [10, 11] } { x := 42, collection := some 1 }
    { x := 43, collection := some 1 } exState_Inv rfl rfl rfl rfl rfl (by decide)
    (by decide) rfl

/-- Claim C7: iteration over a live registry yields a finite sequence in
pointwise correspondence with the current member list — each member's wrapped
value exactly once — and then exhausts; a registry with zero members yields the
empty sequence. -/
theorem iterate_visits_each_member_once (σ : State) (r : Nat) (ws : WeakSet)
    (hML : MembersLive σ) (hr : σ.sets r = some ws) :
    ∃ vl, iterOp σ r = some vl ∧
      List.Forall₂ (fun a v => ∃ ent, σ.entries a = some ent ∧ ent.x = v) ws.objects vl ∧
      (ws.objects = [] → vl = []) := by
  obtain ⟨vl, hvl, hall⟩ := readVals_eq_some σ ws.objects (hML r ws hr)
  refine ⟨vl, ?_, hall, ?_⟩
  · rw [iterOp_eq σ r ws hr]
    exact hvl
  · intro hnil
    rw [hnil] at hall
    exact List.forall₂_nil_left_iff.mp hall

/-- Claim C7 witness: iterating set 1 of the example state yields exactly the
values 42 and 43 of its two members; iterating the empty set 2 yields `[]`. -/
theorem iterate_visits_each_member_once_witness :
    iterOp exState 1 = some [42, 43] ∧ iterOp exState 2 = some [] := by
  obtain ⟨vl, hvl, hall, _⟩ := iterate_visits_each_member_once exState 1
    { objects := [10, 11] } exState_Inv.2.1 rfl
  obtain ⟨vl2, hvl2, _, hnil2⟩ := iterate_visits_each_member_once exState 2
    { objects := [] } exState_Inv.2.1 rfl
  constructor
  · cases hall with
    | cons hhead htail =>
      obtain ⟨ent1, hent1, rfl⟩ := hhead
      obtain rfl : ({ x := 42, collection := some 1 } : Entry) = ent1 :=
        Option.some.inj hent1
      cases htail with
      | cons hhead2 htail2 =>
        obtain ⟨ent2, hent2, rfl⟩ := hhead2
        obtain rfl : ({ x := 43, collection := some 1 } : Entry) = ent2 :=
          Option.some.inj hent2
        cases htail2 with
        | nil => exact hvl
  · rw [hnil2 rfl] at hvl2
    exact hvl2

end WeakSetModel

namespace WeakSetModel

theorem dropHandle_not_last (σ : State) (e : Nat) (ent : Entry)
    (he : σ.entries e = some ent) (hrc : ¬ σ.rc e ≤ 1) :
    dropHandle σ e = some { σ with rc := fun a => if a = e then σ.rc e - 1 else σ.rc a } := by
  unfold dropHandle
  rw [he]
  dsimp only
  rw [if_neg hrc]

theorem dropHandle_last (σ : State) (e : Nat) (ent : Entry) (σ2 : State)
    (he : σ.entries e = some ent) (hrc : σ.rc e ≤ 1)
    (hh : dropEntryHook σ e = some σ2) :
    dropHandle σ e = some { σ2 with rc := fun a => if a = e then 0 else σ2.rc a } := by
  unfold dropHandle
  rw [he]
  dsimp only
  rw [if_pos hrc, hh, Option.map_some']

theorem dropEntryHook_member (σ : State) (e c : Nat) (ent : Entry) (ws : WeakSet)
    (he : σ.entries e = some ent) (hc : ent.collection = some c)
    (hs : σ.sets c = some ws) :
    dropEntryHook σ e = some (removeEntryState (eraseMemberState σ c ws e) e) := by
  unfold dropEntryHook
  rw [he]
  dsimp only
  rw [hc]
  dsimp only
  rw [hs]

/-- Claim C8: for an entry with two owning handles, the unlink-from-registry
action of its destruction hook runs only at the last release: dropping one
handle leaves the entry registered (its value still yielded by iteration);
dropping the final handle removes its address from the member set and
deallocates the entry. -/
theorem shared_entry_unlinks_on_last_release (σ : State) (r e : Nat) (ws : WeakSet)
    (ent : Entry)
    (hInv : Inv σ) (hr : σ.sets r = some ws) (he : σ.entries e = some ent)
    (hc : ent.collection = some r) (hrc : σ.rc e = 2) :
    ∃ σ1, dropHandle σ e = some σ1 ∧
      σ1.sets r = some ws ∧ σ1.entries e = some ent ∧ e ∈ ws.objects ∧
      (∃ vl, iterOp σ1 r = some vl ∧ ent.x ∈ vl) ∧
      ∃ σ2, dropHandle σ1 e = some σ2 ∧
        σ2.entries e = none ∧
        σ2.sets r = some { objects := ws.objects.erase e } ∧
        e ∉ ws.objects.erase e := by
  obtain ⟨hSym, hML, hCL, hND⟩ := hInv
  have hmem : e ∈ ws.objects := (hSym r ws e ent hr he).mpr hc
  have hd1 := dropHandle_not_last σ e ent he (by rw [hrc]; decide)
  refine ⟨_, hd1, hr, he, hmem, ?_, ?_⟩
  · obtain ⟨vl, hvl, hall⟩ := readVals_eq_some σ ws.objects (hML r ws hr)
    refine ⟨vl, ?_, readVals_mem σ ws.objects e ent vl hmem he hvl⟩
    rw [iterOp_eq { σ with rc := fun a => if a = e then σ.rc e - 1 else σ.rc a } r ws hr,
      readVals_congr { σ with rc := fun a => if a = e then σ.rc e - 1 else σ.rc a } σ
        (fun a => rfl) ws.objects]
    exact hvl
  · have he1 : ({ σ with rc := fun a => if a = e then σ.rc e - 1 else σ.rc a } : State).entries e
        = some ent := he
    have hs1 : ({ σ with rc := fun a => if a = e then σ.rc e - 1 else σ.rc a } : State).sets r
        = some ws := hr
    have hhook := dropEntryHook_member
      { σ with rc := fun a => if a = e then σ.rc e - 1 else σ.rc a } e r ent ws he1 hc hs1
    have hrc1 : ({ σ with rc := fun a => if a = e then σ.rc e - 1 else σ.rc a } : State).rc e ≤ 1 := by
      show (if e = e then σ.rc e - 1 else σ.rc e) ≤ 1
      rw [if_pos rfl, hrc]
    have hd2 := dropHandle_last _ e ent _ he1 hrc1 hhook
    refine ⟨_, hd2, ?_, ?_, (hND r ws hr).not_mem_erase⟩
    · dsimp only
      rw [removeEntryState_entries, if_pos rfl]
    · dsimp only
      rw [removeEntryState_sets, eraseMemberState_sets, if_pos rfl]

/-- Claim C8 witness: entry 11 of the example state has two handles; dropping
one leaves it a member of set 1 with value 43 still yielded by iteration, and
dropping the second removes address 11 from set 1's member set. -/
theorem shared_entry_unlinks_on_last_release_witness :
    ((dropHandle exState 11).getD exState).sets 1 = some { objects := [10, 11] } ∧
    ((dropHandle exState 11).getD exState).entries 11 = some { x := 43, collection := some 1 } ∧
    iterOp ((dropHandle exState 11).getD exState) 1 = some [42, 43] ∧
    ((dropHandle ((dropHandle exState 11).getD exState) 11).getD exState).entries 11 = none ∧
    ((dropHandle ((dropHandle exState 11).getD exState) 11).getD exState).sets 1
      = some { objects := [10] } := by
  obtain ⟨σ1, hd1, hs1, he1, hm1, ⟨vl, hvl, hx⟩, σ2, hd2, he2, hs2, hnm⟩ :=
    shared_entry_unlinks_on_last_release exState 1 11 { objects := [10, 11] }
      { x := 43, collection := some 1 } exState_Inv rfl rfl rfl rfl
  obtain rfl : σ1 = (dropHandle exState 11).getD exState := by rw [hd1]; rfl
  obtain rfl : σ2 = (dropHandle ((dropHandle exState 11).getD exState) 11).getD exState := by
    rw [hd2]
    rfl
  refine ⟨hs1, he1, ?_, he2, hs2⟩
  have hvl2 : readVals exState [10, 11] = some vl :=
    (readVals_congr exState ((dropHandle exState 11).getD exState) (fun a => rfl)
        [10, 11]).trans
      ((iterOp_eq ((dropHandle exState 11).getD exState) 1 { objects := [10, 11] }
        hs1).symm.trans hvl)
  have hcomp : readVals exState [10, 11] = some [42, 43] := rfl
  obtain rfl : vl = [42, 43] := Option.some.inj (hvl2.symm.trans hcomp)
  exact hvl

/-- Claim C10 (implicit): destruction is order-safe in both directions. From an
invariant state: destroying the registry succeeds (it dereferences only live
member entries), leaves the entry alive with membership `None` if it was a
member, and the entry's later destruction succeeds (taking the no-membership
branch rather than dereferencing the dead registry). Symmetrically, destroying
the entry first leaves the registry live without the entry's address in its
member set, and the registry's later destruction succeeds without dereferencing
the dead entry. The dangling-dereference outcomes (`none`) are unreachable in
both orders. -/
theorem destruction_order_safe (σ : State) (r e : Nat) (ws : WeakSet) (ent : Entry)
    (hInv : Inv σ) (hr : σ.sets r = some ws) (he : σ.entries e = some ent) :
    (dropSetOp σ r = some (dropSetState σ r ws) ∧
      ((dropSetState σ r ws).entries e).isSome ∧
      (e ∈ ws.objects → (dropSetState σ r ws).entries e
          = some { x := ent.x, collection := none }) ∧
      (dropEntryHook (dropSetState σ r ws) e).isSome) ∧
    (∀ τ, dropEntryHook σ e = some τ →
      ∃ ws', τ.sets r = some ws' ∧ e ∉ ws'.objects ∧
        dropSetOp τ r = some (dropSetState τ r ws')) := by
  have hInv' := dropSet_preserves_Inv σ r ws hInv hr
  constructor
  · refine ⟨dropSet_succeeds σ r ws hInv.2.1 hr, ?_, ?_, ?_⟩
    · rw [dropSetState_entries]
      by_cases hm : e ∈ ws.objects
      · rw [if_pos hm, he]; rfl
      · rw [if_neg hm, he]; rfl
    · intro hm
      rw [dropSetState_entries, if_pos hm, he]
      rfl
    · have hlive1 : ((dropSetState σ r ws).entries e).isSome := by
        rw [dropSetState_entries]
        by_cases hm : e ∈ ws.objects
        · rw [if_pos hm, he]; rfl
        · rw [if_neg hm, he]; rfl
      obtain ⟨ent1, hent1⟩ := Option.isSome_iff_exists.mp hlive1
      exact dropEntryHook_succeeds _ e ent1 hInv'.2.2.1 hent1
  · intro τ hτ
    obtain ⟨ent0, he0, hcase⟩ := dropEntryHook_eq_some σ e τ hτ
    obtain rfl : ent = ent0 := Option.some.inj (he.symm.trans he0)
    have hInvτ := dropEntryHook_preserves_Inv σ e τ hInv hτ
    rcases hcase with ⟨hc, rfl⟩ | ⟨c, wsc, hc, hs, rfl⟩
    · have hsr : (removeEntryState σ e).sets r = some ws := hr
      have hnm : e ∉ ws.objects := by
        intro hm
        have hcol := (hInv.1 r ws e ent hr he).mp hm
        rw [hc] at hcol
        exact Option.noConfusion hcol
      exact ⟨ws, hsr, hnm, dropSet_succeeds _ r ws hInvτ.2.1 hsr⟩
    · by_cases hrc : r = c
      · obtain rfl : ws = wsc := by
          rw [hrc] at hr
          exact Option.some.inj (hr.symm.trans hs)
        have hsr : (removeEntryState (eraseMemberState σ c ws e) e).sets r
            = some { objects := ws.objects.erase e } := by
          rw [removeEntryState_sets, eraseMemberState_sets, if_pos hrc]
        refine ⟨_, hsr, ?_, dropSet_succeeds _ r _ hInvτ.2.1 hsr⟩
        have hnd : ws.objects.Nodup := by
          apply hInv.2.2.2 c ws
          rw [← hrc]
          exact hr
        exact hnd.not_mem_erase
      · have hsr : (removeEntryState (eraseMemberState σ c wsc e) e).sets r = some ws := by
          rw [removeEntryState_sets, eraseMemberState_sets, if_neg hrc]
          exact hr
        have hnm : e ∉ ws.objects := by
          intro hm
          have hcol := (hInv.1 r ws e ent hr he).mp hm
          rw [hc] at hcol
          exact hrc (Option.some.inj hcol).symm
        exact ⟨ws, hsr, hnm, dropSet_succeeds _ r ws hInvτ.2.1 hsr⟩

/-- Claim C10 witness: in the example state, destroying set 1 first leaves entry
10 alive and its subsequent destruction succeeds; destroying entry 10 first
leaves set 1 without address 10 and its subsequent destruction succeeds. -/
theorem destruction_order_safe_witness :
    dropSetOp exState 1 = some (dropSetState exState 1 { objects := [10, 11] }) ∧
    ((dropSetState exState 1 { objects := [10, 11] }).entries 10).isSome = true ∧
    (dropEntryHook (dropSetState exState 1 { objects := [10, 11] }) 10).isSome = true ∧
    ((dropEntryHook exState 10).getD exState).sets 1 = some { objects := [11] } ∧
    dropSetOp ((dropEntryHook exState 10).getD exState) 1
      = some (dropSetState ((dropEntryHook exState 10).getD exState) 1 { objects := [11] }) := by
  obtain ⟨⟨ha1, ha2, _, ha4⟩, hb⟩ := destruction_order_safe exState 1 10
    { objects := [10, 11] } { x := 42, collection := some 1 } exState_Inv rfl rfl
  obtain ⟨ws', hws', hnm, hdrop⟩ := hb ((dropEntryHook exState 10).getD exState) rfl
  have hcomp : ((dropEntryHook exState 10).getD exState).sets 1
      = some { objects := [11] } := rfl
  obtain rfl : ws' = { objects := [11] } := Option.some.inj (hws'.symm.trans hcomp)
  exact ⟨ha1, ha2, ha4, hws', hdrop⟩

end WeakSetModel
